import Mathlib

/-!
# Verification of the equation_processor core (src/lib.rs)

A shallow embedding of the parsing, name-resolution and render-orchestration
layer of the `equation_processor` crate, together with proofs about it.

Modelling conventions:
* Strings are Lean `String`s; all character-level operations are written out
  on `String.data` so that they mirror the Rust code operating on `char`s.
* `read_csv_file` in Rust takes a path, opens the file and iterates
  `BufReader::lines()`.  The I/O layer is represented by the already-split
  list of decoded text lines (the `lines().flatten()` iterator output).
* `HashMap<String, usize>` with `entry(k).or_insert(0)` is represented by a
  total function `String → Nat` that defaults to `0`.
* Filesystem and subprocess side effects of `Equation::render` are
  represented by an explicit environment `Env` (the results the outside
  world returns) plus a trace of attempted `Effect`s.
-/

namespace EquationProcessor

/-- Supported input file types (`enum Filetype` in src/lib.rs). -/
inductive Filetype where
  | Csv
  | Markdown
  | Unknown
deriving Repr, DecidableEq

/-- A mathematical equation entry (`struct Equation` in src/lib.rs). -/
structure Equation where
  active : Bool
  name : String
  body : String
deriving Repr, DecidableEq

/-- The character class `[A-Za-z0-9_.]` of the sanitizer regex. -/
def allowedChar (c : Char) : Bool :=
  decide (('A' ≤ c ∧ c ≤ 'Z') ∨ ('a' ≤ c ∧ c ≤ 'z') ∨ ('0' ≤ c ∧ c ≤ '9') ∨ c = '_' ∨ c = '.')

/-- One step of `re.replace_all(name, "_")` for the regex `[^A-Za-z0-9_.]`:
a character in the class is kept, any other single character becomes `'_'`. -/
def sanitizeChar (c : Char) : Char :=
  if allowedChar c then c else '_'

/-- `Equation::sanitize_filename`: replace every character outside
`[A-Za-z0-9_.]` with `_`; if the result is empty, `"default_equation"`. -/
def sanitize_filename (name : String) : String :=
  let s : String := ⟨name.data.map sanitizeChar⟩
  if s = "" then "default_equation" else s

/-- `Equation::new`: construct an equation, sanitizing the name. -/
def Equation.new (active : Bool) (name : String) (body : String) : Equation :=
  { active := active, name := sanitize_filename name, body := body }

/-- The Unicode `White_Space` property, as used by Rust's `str::trim`. -/
def rustWhitespace (c : Char) : Bool :=
  c.toNat ∈ [0x09, 0x0A, 0x0B, 0x0C, 0x0D, 0x20, 0x85, 0xA0, 0x1680,
    0x2028, 0x2029, 0x202F, 0x205F, 0x3000]
  || (0x2000 ≤ c.toNat && c.toNat ≤ 0x200A)

/-- Rust `str::trim`: remove leading and trailing whitespace characters. -/
def rustTrim (s : String) : String :=
  ⟨((s.data.dropWhile rustWhitespace).reverse.dropWhile rustWhitespace).reverse⟩

/-- Rust `str::eq_ignore_ascii_case`: equality after ASCII-lowercasing. -/
def eqIgnoreAsciiCase (a b : String) : Bool :=
  a.data.map Char.toLower == b.data.map Char.toLower

/-- Rust `str::split(',')`, on the character list: split at every comma,
keeping empty fields (an empty input yields one empty field). -/
def splitFieldsAux : List Char → List (List Char)
  | [] => [[]]
  | c :: cs =>
    if c = ',' then [] :: splitFieldsAux cs
    else
      match splitFieldsAux cs with
      | f :: fs => (c :: f) :: fs
      | [] => [[c]]

/-- `line.split(',').collect::<Vec<&str>>()`. -/
def splitFields (line : String) : List String :=
  (splitFieldsAux line.data).map fun f => ⟨f⟩

/-- The decimal suffixing applied to a repeated name: the Rust code computes
`format!("{name}_{c}")` when the occurrence counter `c` is positive and keeps
the name unchanged when `c = 0`. -/
def suffixName (raw : String) (c : Nat) : String :=
  if 0 < c then raw ++ "_" ++ toString c else raw

/-- `counts.entry(key).or_insert(0)` followed by `*c += 1`:
bump the occurrence counter of `key`. -/
def bump (counts : String → Nat) (key : String) : String → Nat :=
  fun k => if k = key then counts key + 1 else counts k

/-- The loop body of `read_csv_file` over the data rows (everything after
`.skip(1)`), threading the duplicate-name counter map. -/
def read_csv_rows : List String → (String → Nat) → List Equation
  | [], _ => []
  | line :: rest, counts =>
    let parts := splitFields line
    if 3 ≤ parts.length then
      let active := eqIgnoreAsciiCase (rustTrim (parts.getD 0 "")) "yes"
      let body := rustTrim (parts.getD 1 "")
      let raw := rustTrim (parts.getD 2 "")
      Equation.new active (suffixName raw (counts raw)) body ::
        read_csv_rows rest (bump counts raw)
    else
      read_csv_rows rest counts

/-- `read_csv_file`: skip the first line unconditionally, then parse every
remaining line that splits on `','` into at least three fields.  The
duplicate counter map starts empty on every invocation. -/
def read_csv_file (lines : List String) : List Equation :=
  read_csv_rows (lines.drop 1) (fun _ => 0)

/-- `detect_file_type`: classification of
`path.extension().and_then(|e| e.to_str())`. -/
def detect_file_type : Option String → Filetype
  | some "csv" => Filetype.Csv
  | some "md" => Filetype.Markdown
  | some "markdown" => Filetype.Markdown
  | _ => Filetype.Unknown

/-! ## Markdown parsing

`parse_markdown` scans its input with the regex

`(?s)(%%(yes|no)?%%)?[\n\r]*\$\$[\n\r]*(.*?)\$\$[\n\r]*(%%(.*?)%%)?`

using `captures_iter` (leftmost-first matching, successive non-overlapping
matches).  The embedding below implements exactly this matching discipline
as a character-list scanner:

* `dropNl` is the greedy `[\n\r]*` (never forced to backtrack, since the
  token that follows it in the pattern is `$` or `%`, never a newline);
* `splitAtPair` is the lazy `(.*?)` running up to the first occurrence of a
  two-character delimiter (`$$` or `%%`), with `(?s)` making `.` match
  newlines;
* `matchDirective` is the optional opening group `(%%(yes|no)?%%)?`, with
  the alternation tried in source order (`yes`, `no`, empty);
* `matchAt` tries the pattern at one position, backtracking to the
  group-1-absent branch if the group-1-present branch fails;
* `scanAux` advances one character at a time until a match is found
  (leftmost), then resumes after the end of the match. -/

/-- One regex capture: group 2 (`yes`/`no`), group 3 (raw body between the
`$$` delimiters, after the greedy `[\n\r]*`), group 5 (name directive). -/
structure MdCap where
  g2 : Option String
  g3 : String
  g5 : Option String
deriving Repr, DecidableEq

/-- `[\n\r]*`, matched greedily. -/
def dropNl (cs : List Char) : List Char :=
  cs.dropWhile fun c => c = '\n' || c = '\r'

/-- Split at the first occurrence of the two-character delimiter `d d`:
returns the text before it and the text after it.  `none` when the
delimiter pair does not occur. -/
def splitAtPair (d : Char) : List Char → Option (List Char × List Char)
  | [] => none
  | [_] => none
  | a :: b :: rest =>
    if a = d ∧ b = d then some ([], rest)
    else
      match splitAtPair d (b :: rest) with
      | some (pre, post) => some (a :: pre, post)
      | none => none

/-- Strip a literal prefix, returning the remainder on success. -/
def stripLit : List Char → List Char → Option (List Char)
  | [], cs => some cs
  | _ :: _, [] => none
  | p :: ps, c :: cs => if p = c then stripLit ps cs else none

/-- The opening directive group `(%%(yes|no)?%%)?` when it participates:
group 2 is `some "yes"`, `some "no"`, or `none` (for `%%%%`). -/
def matchDirective (cs : List Char) : Option (Option String × List Char) :=
  match stripLit "%%yes%%".data cs with
  | some rest => some (some "yes", rest)
  | none =>
    match stripLit "%%no%%".data cs with
    | some rest => some (some "no", rest)
    | none =>
      match stripLit "%%%%".data cs with
      | some rest => some (none, rest)
      | none => none

/-- The trailing group `(%%(.*?)%%)?` when it participates: `%%`, then the
lazy capture up to the first closing `%%`. -/
def matchNameDirective (cs : List Char) : Option (String × List Char) :=
  match cs with
  | '%' :: '%' :: rest =>
    match splitAtPair '%' rest with
    | some (inner, post) => some (⟨inner⟩, post)
    | none => none
  | _ => none

/-- The part of the pattern after the optional opening directive:
`[\n\r]*\$\$[\n\r]*(.*?)\$\$[\n\r]*(%%(.*?)%%)?`.  Returns the capture and
the remainder of the text after the whole match. -/
def matchCore (g2 : Option String) (cs : List Char) : Option (MdCap × List Char) :=
  match dropNl cs with
  | '$' :: '$' :: rest =>
    match splitAtPair '$' (dropNl rest) with
    | some (body, post) =>
      match matchNameDirective (dropNl post) with
      | some (nm, rem) => some (⟨g2, ⟨body⟩, some nm⟩, rem)
      | none => some (⟨g2, ⟨body⟩, none⟩, dropNl post)
    | none => none
  | _ => none

/-- Try the whole pattern at the current position: the group-1-present
branch first, falling back to the group-1-absent branch. -/
def matchAt (cs : List Char) : Option (MdCap × List Char) :=
  match matchDirective cs with
  | some (g2, rest) =>
    match matchCore g2 rest with
    | some r => some r
    | none => matchCore none cs
  | none => matchCore none cs

/-- `captures_iter`: find the leftmost match, emit its capture, resume after
it.  Every successful match consumes at least the four delimiter characters,
so `cs.length` steps of fuel always suffice. -/
def scanAux : Nat → List Char → List MdCap
  | 0, _ => []
  | fuel + 1, cs =>
    match matchAt cs with
    | some (cap, rem) => cap :: scanAux fuel rem
    | none =>
      match cs with
      | [] => []
      | _ :: rest => scanAux fuel rest

/-- All captures of the regex over the whole input. -/
def mdCaptures (content : String) : List MdCap :=
  scanAux content.data.length content.data

/-- The body of the `captures_iter` loop in `parse_markdown`: build one
equation from each capture, threading the duplicate-name counter map. -/
def buildEquations : List MdCap → (String → Nat) → List Equation
  | [], _ => []
  | cap :: caps, counts =>
    let active :=
      match cap.g2 with
      | none => true
      | some s => s == "yes"
    let body := rustTrim cap.g3
    let raw :=
      match cap.g5 with
      | none => "default_equation"
      | some s => s
    Equation.new active (suffixName raw (counts raw)) body ::
      buildEquations caps (bump counts raw)

/-- `parse_markdown`: scan the content for equation blocks and build the
equation list.  The duplicate counter map starts empty on every invocation. -/
def parse_markdown (content : String) : List Equation :=
  buildEquations (mdCaptures content) (fun _ => 0)

/-! ## Rendering

`Equation::render` touches the outside world: it creates the output
directory, writes the `.tex` file, spawns `tectonic`, spawns `pdftocairo`,
and optionally removes intermediates.  The embedding threads an explicit
environment `Env` describing what the outside world answers to each
request, and returns both the `io::Result<()>` value and the trace of
attempted effects, in order. -/

/-- One attempted side effect of the render pipeline. -/
inductive Effect where
  | createDirAll (dir : String)
  | writeFile (path : String) (contents : String)
  | spawnTectonic (texPath : String) (outDir : String)
  | spawnPdftocairo (pdfPath : String) (svgPath : String)
  | removeFile (path : String)
deriving Repr, DecidableEq

/-- Results the outside world returns to each request: `Except.error` is an
I/O error (`fs` failure or an unspawnable process propagated by `?`);
for the two subprocesses, `Except.ok b` means the process ran and
`b = status.success()`. -/
structure Env where
  createDirAll : String → Except String Unit
  writeFile : String → String → Except String Unit
  runTectonic : String → String → Except String Bool
  runPdftocairo : String → String → Except String Bool

/-- `Equation::generate_latex`: the fixed standalone template with the
color code (leading `'#'`s stripped) and the equation body interpolated. -/
def generate_latex (eq : Equation) (color : String) : String :=
  let code : String := ⟨color.data.dropWhile fun c => c = '#'⟩
  "\\documentclass[border=1pt]\x7bstandalone\x7d\n                \\usepackage\x7bamsmath\x7d\n                \\usepackage\x7bxfrac\x7d\n                \\usepackage\x7bgfsneohellenicot\x7d\n                \\usepackage\x7bxcolor\x7d\n                \\definecolor\x7bequationcolor\x7d\x7bHTML\x7d\x7b"
    ++ code
    ++ "\x7d\n                \\begin\x7bdocument\x7d\n                \\setbox0\\hbox\x7b\\Large \\textcolor\x7bequationcolor\x7d\x7b$"
    ++ eq.body
    ++ "$\x7d\x7d\n                \\dimen0=12mm\n                \\ifdim\\ht0<\\dimen0 \\ht0=\\dimen0 \\fi\n                \\ifdim\\dp0<5mm \\dp0=5mm \\fi\n                \\box0\n                \\end\x7bdocument\x7d"

/-- `output_dir.join(...)` for the simple names used here. -/
def joinPath (dir : String) (file : String) : String :=
  dir ++ "/" ++ file

/-- `Equation::convert_pdf_to_svg`: spawn `pdftocairo -svg pdf svg`; a spawn
failure propagates, a non-zero status becomes "SVG conversion failed". -/
def convert_pdf_to_svg (eq : Equation) (env : Env) (output_dir : String) :
    Except String Unit × List Effect :=
  let pdf := joinPath output_dir (eq.name ++ ".pdf")
  let svg := joinPath output_dir (eq.name ++ ".svg")
  match env.runPdftocairo pdf svg with
  | .error e => (.error e, [.spawnPdftocairo pdf svg])
  | .ok true => (.ok (), [.spawnPdftocairo pdf svg])
  | .ok false => (.error "SVG conversion failed", [.spawnPdftocairo pdf svg])

/-- `Equation::cleanup_intermediate_files`: best-effort removal of the
`.tex` and `.pdf` intermediates; removal failures are ignored. -/
def cleanup_intermediate_files (eq : Equation) (output_dir : String) :
    Except String Unit × List Effect :=
  (.ok (), [.removeFile (joinPath output_dir (eq.name ++ ".tex")),
    .removeFile (joinPath output_dir (eq.name ++ ".pdf"))])

/-- `Equation::render`.  An inactive equation is an immediate no-op success.
Otherwise: create the output directory, write the `.tex` source, spawn
`tectonic`; when tectonic ran and succeeded, convert to SVG and optionally
clean up; when tectonic ran and failed, skip conversion and return `Ok`. -/
def Equation.render (eq : Equation) (env : Env) (output_dir : String)
    (color : String) (delete_intermediates : Bool) :
    Except String Unit × List Effect :=
  if eq.active = false then (.ok (), [])
  else
    match env.createDirAll output_dir with
    | .error e => (.error e, [.createDirAll output_dir])
    | .ok _ =>
      let texPath := joinPath output_dir (eq.name ++ ".tex")
      let tex := generate_latex eq color
      match env.writeFile texPath tex with
      | .error e => (.error e, [.createDirAll output_dir, .writeFile texPath tex])
      | .ok _ =>
        match env.runTectonic texPath output_dir with
        | .error e =>
          (.error e,
            [.createDirAll output_dir, .writeFile texPath tex,
              .spawnTectonic texPath output_dir])
        | .ok status =>
          let t0 : List Effect :=
            [.createDirAll output_dir, .writeFile texPath tex,
              .spawnTectonic texPath output_dir]
          if status then
            match convert_pdf_to_svg eq env output_dir with
            | (.error e, t1) => (.error e, t0 ++ t1)
            | (.ok _, t1) =>
              if delete_intermediates then
                match cleanup_intermediate_files eq output_dir with
                | (r, t2) => (r, t0 ++ t1 ++ t2)
              else (.ok (), t0 ++ t1)
          else (.ok (), t0)

/-- The loop of `render_equations` over the active equations: render each
in order, propagating the first error via `?`. -/
def render_loop (env : Env) (output_dir : String) (color : String)
    (delete_intermediates : Bool) : List Equation → Except String Unit × List Effect
  | [] => (.ok (), [])
  | e :: es =>
    match e.render env output_dir color delete_intermediates with
    | (.error err, t) => (.error err, t)
    | (.ok _, t) =>
      match render_loop env output_dir color delete_intermediates es with
      | (r, t2) => (r, t ++ t2)

/-- `render_equations`: filter to the active equations and render them
strictly sequentially, stopping at the first error. -/
def render_equations (eqs : List Equation) (env : Env) (output_dir : String)
    (color : String) (delete_intermediates : Bool) :
    Except String Unit × List Effect :=
  render_loop env output_dir color delete_intermediates
    (eqs.filter fun e => e.active)

/-! ## Abstraction layer used by the theorems

Both parsers run the same per-record step: extract an
`(active, body, raw-name)` triple, look up the raw name in the counter map,
suffix, bump, sanitize.  `processItems` is that common loop; the lemmas
below prove both parsers equal to it, and characterize it. -/

/-- Default `Equation` used only as the `List.getD` fallback. -/
def dEq : Equation := ⟨false, "", ""⟩

/-- Default item triple used only as the `List.getD` fallback. -/
def dItem : Bool × String × String := (false, "", "")

/-- Default capture used only as the `List.getD` fallback. -/
def dCap : MdCap := ⟨none, "", none⟩

/-- The raw (pre-suffixing, pre-sanitization) candidate name of an item. -/
def rawOf (x : Bool × String × String) : String := x.2.2

/-- The common per-record loop of both parsers. -/
def processItems : List (Bool × String × String) → (String → Nat) → List Equation
  | [], _ => []
  | x :: items, counts =>
    Equation.new x.1 (suffixName (rawOf x) (counts (rawOf x))) x.2.1 ::
      processItems items (bump counts (rawOf x))

/-- The triples extracted from the accepted CSV data rows. -/
def csvItems (rows : List String) : List (Bool × String × String) :=
  rows.filterMap fun line =>
    let parts := splitFields line
    if 3 ≤ parts.length then
      some (eqIgnoreAsciiCase (rustTrim (parts.getD 0 "")) "yes",
        rustTrim (parts.getD 1 ""), rustTrim (parts.getD 2 ""))
    else none

/-- `cap.get(2).is_none_or(|m| m.as_str() == "yes")`. -/
def mdActive (cap : MdCap) : Bool :=
  match cap.g2 with
  | none => true
  | some s => s == "yes"

/-- `cap.get(5).map_or("default_equation", |m| m.as_str())`. -/
def mdRaw (cap : MdCap) : String :=
  match cap.g5 with
  | none => "default_equation"
  | some s => s

/-- The triple extracted from one markdown capture. -/
def capItem (cap : MdCap) : Bool × String × String :=
  (mdActive cap, rustTrim cap.g3, mdRaw cap)

/-- An environment in which every filesystem request succeeds, `tectonic`
always runs but exits with a non-zero status, and `pdftocairo` succeeds. -/
def envNonZero : Env :=
  { createDirAll := fun _ => .ok ()
    writeFile := fun _ _ => .ok ()
    runTectonic := fun _ _ => .ok false
    runPdftocairo := fun _ _ => .ok true }

/-! ## Decimal numerals

`format!("{name}_{c}")` renders the counter in decimal; in the embedding
that is `toString c`, i.e. `Nat.repr`.  The lemmas below establish the two
facts the name-distinctness proofs need: every character of the rendering
is a decimal digit, and the rendering is injective. -/

theorem toDigitsCore_shift (n : Nat) : ∀ fuel fuel' ds, n < fuel → n < fuel' →
    Nat.toDigitsCore 10 fuel n ds = Nat.toDigitsCore 10 fuel' n [] ++ ds := by
  induction n using Nat.strong_induction_on with
  | _ n ih =>
    intro fuel fuel' ds hf hf'
    obtain ⟨f, rfl⟩ : ∃ f, fuel = f + 1 := ⟨fuel - 1, by omega⟩
    obtain ⟨f', rfl⟩ : ∃ g, fuel' = g + 1 := ⟨fuel' - 1, by omega⟩
    by_cases h : n / 10 = 0
    · simp [Nat.toDigitsCore, h]
    · have hn0 : 0 < n := by
        rcases Nat.eq_zero_or_pos n with h0 | h0
        · subst h0; simp at h
        · exact h0
      have hdiv : n / 10 < n := Nat.div_lt_self hn0 (by omega)
      have h1 := ih (n / 10) hdiv f (n / 10 + 1) (Nat.digitChar (n % 10) :: ds)
        (by omega) (Nat.lt_succ_self _)
      have h2 := ih (n / 10) hdiv f' (n / 10 + 1) (Nat.digitChar (n % 10) :: [])
        (by omega) (Nat.lt_succ_self _)
      simp only [Nat.toDigitsCore, h, if_false]
      rw [h1, h2]
      simp

theorem toDigits_lt (n : Nat) (h : n < 10) : Nat.toDigits 10 n = [Nat.digitChar n] := by
  have h0 : n / 10 = 0 := Nat.div_eq_of_lt h
  simp [Nat.toDigits, Nat.toDigitsCore, h0, Nat.mod_eq_of_lt h]

theorem toDigits_ge (n : Nat) (h : 10 ≤ n) :
    Nat.toDigits 10 n = Nat.toDigits 10 (n / 10) ++ [Nat.digitChar (n % 10)] := by
  have h1 : 1 ≤ n / 10 := (Nat.le_div_iff_mul_le (by omega)).mpr (by omega)
  have h0 : ¬ n / 10 = 0 := by omega
  show Nat.toDigitsCore 10 (n + 1) n [] = _
  simp only [Nat.toDigitsCore, h0, if_false]
  rw [toDigitsCore_shift (n / 10) n (n / 10 + 1) _
    (by have := Nat.div_lt_self (by omega : 0 < n) (by omega : 1 < 10); omega)
    (Nat.lt_succ_self _)]
  rfl

theorem digitChar_range (n : Nat) (h : n < 10) :
    '0' ≤ Nat.digitChar n ∧ Nat.digitChar n ≤ '9' := by
  interval_cases n <;> decide

theorem digitChar_val (n : Nat) (h : n < 10) : (Nat.digitChar n).toNat - 48 = n := by
  interval_cases n <;> decide

theorem toDigits_chars (n : Nat) : ∀ c ∈ Nat.toDigits 10 n, '0' ≤ c ∧ c ≤ '9' := by
  induction n using Nat.strong_induction_on with
  | _ n ih =>
    by_cases h : n < 10
    · rw [toDigits_lt n h]
      intro c hc
      simp only [List.mem_singleton] at hc
      subst hc
      exact digitChar_range n h
    · rw [toDigits_ge n (by omega)]
      intro c hc
      rcases List.mem_append.mp hc with hc | hc
      · exact ih (n / 10) (Nat.div_lt_self (by omega) (by omega)) c hc
      · simp only [List.mem_singleton] at hc
        subst hc
        exact digitChar_range _ (Nat.mod_lt _ (by omega))

/-- Decimal evaluation of a digit string. -/
def listVal (l : List Char) : Nat :=
  l.foldl (fun a c => a * 10 + (c.toNat - 48)) 0

theorem listVal_toDigits (n : Nat) : listVal (Nat.toDigits 10 n) = n := by
  induction n using Nat.strong_induction_on with
  | _ n ih =>
    by_cases h : n < 10
    · rw [toDigits_lt n h]
      show 0 * 10 + ((Nat.digitChar n).toNat - 48) = n
      rw [digitChar_val n h]
      omega
    · rw [toDigits_ge n (by omega)]
      have hsplit : listVal (Nat.toDigits 10 (n / 10) ++ [Nat.digitChar (n % 10)])
          = listVal (Nat.toDigits 10 (n / 10)) * 10 + ((Nat.digitChar (n % 10)).toNat - 48) := by
        simp [listVal, List.foldl_append]
      rw [hsplit, ih (n / 10) (Nat.div_lt_self (by omega) (by omega)),
        digitChar_val _ (Nat.mod_lt _ (by omega))]
      omega

theorem toDigits_inj {a b : Nat} (h : Nat.toDigits 10 a = Nat.toDigits 10 b) : a = b := by
  have ha := listVal_toDigits a
  rw [h, listVal_toDigits b] at ha
  exact ha.symm

theorem toString_nat_data (n : Nat) : (toString n : String).data = Nat.toDigits 10 n := rfl

/-! ## Sanitizer lemmas -/

theorem sanitizeChar_of_allowed {c : Char} (h : allowedChar c = true) : sanitizeChar c = c := by
  simp [sanitizeChar, h]

theorem sanitizeChar_not_allowed {c : Char} (h : ¬ allowedChar c = true) :
    sanitizeChar c = '_' := by
  simp [sanitizeChar, h]

theorem sanitizeChar_allowed (c : Char) : allowedChar (sanitizeChar c) = true := by
  by_cases h : allowedChar c = true
  · rw [sanitizeChar_of_allowed h]
    exact h
  · rw [sanitizeChar_not_allowed h]
    decide

theorem sanitizeChar_digit {c : Char} (h : '0' ≤ c ∧ c ≤ '9') : sanitizeChar c = c := by
  apply sanitizeChar_of_allowed
  simp only [allowedChar, decide_eq_true_eq]
  tauto

theorem sanitizeChar_idem (c : Char) : sanitizeChar (sanitizeChar c) = sanitizeChar c :=
  sanitizeChar_of_allowed (sanitizeChar_allowed c)

theorem string_mk_eq_empty_iff (l : List Char) : (⟨l⟩ : String) = "" ↔ l = [] := by
  constructor
  · intro h
    exact congrArg String.data h
  · intro h
    subst h
    rfl

theorem sanitize_filename_of_ne (x : String) (h : ¬ x.data = []) :
    sanitize_filename x = ⟨x.data.map sanitizeChar⟩ := by
  have hne : ¬ (⟨x.data.map sanitizeChar⟩ : String) = "" := by
    rw [string_mk_eq_empty_iff]
    simpa using h
  simp [sanitize_filename, hne]

theorem sanitize_filename_of_empty (x : String) (h : x.data = []) :
    sanitize_filename x = "default_equation" := by
  have : (⟨x.data.map sanitizeChar⟩ : String) = "" := by
    rw [string_mk_eq_empty_iff, h]
    rfl
  simp [sanitize_filename, this]

theorem sanitize_filename_ne_empty (x : String) : sanitize_filename x ≠ "" := by
  by_cases h : x.data = []
  · rw [sanitize_filename_of_empty x h]
    decide
  · rw [sanitize_filename_of_ne x h]
    rw [Ne, string_mk_eq_empty_iff]
    simpa using h

theorem sanitize_filename_chars (x : String) :
    ∀ c ∈ (sanitize_filename x).data, allowedChar c = true := by
  by_cases h : x.data = []
  · rw [sanitize_filename_of_empty x h]
    decide
  · rw [sanitize_filename_of_ne x h]
    intro c hc
    simp only [List.mem_map] at hc
    obtain ⟨a, _, rfl⟩ := hc
    exact sanitizeChar_allowed a

/-! ## Suffixed names -/

theorem suffixName_zero (r : String) : suffixName r 0 = r := rfl

theorem suffixName_pos (r : String) {k : Nat} (h : 0 < k) :
    suffixName r k = r ++ "_" ++ toString k := by
  simp [suffixName, h]

theorem suffixName_data (r : String) {k : Nat} (h : 0 < k) :
    (suffixName r k).data = r.data ++ '_' :: Nat.toDigits 10 k := by
  rw [suffixName_pos r h]
  show (r.data ++ "_".data) ++ (toString k : String).data = _
  rw [toString_nat_data]
  simp

theorem map_sanitize_toDigits (k : Nat) :
    (Nat.toDigits 10 k).map sanitizeChar = Nat.toDigits 10 k := by
  conv_rhs => rw [← List.map_id (Nat.toDigits 10 k)]
  apply List.map_congr_left
  intro a ha
  exact sanitizeChar_digit (toDigits_chars k a ha)

theorem sanitize_zero_ne_suffix (r : String) {b : Nat} (hb : 0 < b) :
    sanitize_filename (suffixName r 0) ≠ sanitize_filename (suffixName r b) := by
  have hdata : (suffixName r b).data = r.data ++ '_' :: Nat.toDigits 10 b :=
    suffixName_data r hb
  have hne : ¬ (suffixName r b).data = [] := by
    rw [hdata]
    simp
  rw [suffixName_zero, sanitize_filename_of_ne _ hne, hdata]
  by_cases hr : r.data = []
  · rw [sanitize_filename_of_empty r hr, hr]
    intro hcontra
    have hdd : "default_equation".data
        = (([] ++ '_' :: Nat.toDigits 10 b).map sanitizeChar) :=
      congrArg String.data hcontra
    have hhead := congrArg (fun l => l.headD ' ') hdd
    simp only [List.nil_append, List.map_cons, List.headD_cons] at hhead
    rw [sanitizeChar_of_allowed (by decide)] at hhead
    revert hhead
    decide
  · rw [sanitize_filename_of_ne r hr]
    intro hcontra
    have hdd : r.data.map sanitizeChar
        = ((r.data ++ '_' :: Nat.toDigits 10 b).map sanitizeChar) :=
      congrArg String.data hcontra
    have hlen := congrArg List.length hdd
    simp at hlen

theorem sanitize_suffixName_inj (r : String) {a b : Nat}
    (h : sanitize_filename (suffixName r a) = sanitize_filename (suffixName r b)) :
    a = b := by
  rcases Nat.eq_zero_or_pos a with ha | ha <;> rcases Nat.eq_zero_or_pos b with hb | hb
  · omega
  · subst ha
    exact absurd h (sanitize_zero_ne_suffix r hb)
  · subst hb
    exact absurd h.symm (sanitize_zero_ne_suffix r ha)
  · have hdA : (suffixName r a).data = r.data ++ '_' :: Nat.toDigits 10 a :=
      suffixName_data r ha
    have hdB : (suffixName r b).data = r.data ++ '_' :: Nat.toDigits 10 b :=
      suffixName_data r hb
    rw [sanitize_filename_of_ne _ (by rw [hdA]; simp),
      sanitize_filename_of_ne _ (by rw [hdB]; simp)] at h
    have h2 : ((suffixName r a).data.map sanitizeChar)
        = ((suffixName r b).data.map sanitizeChar) := congrArg String.data h
    rw [hdA, hdB] at h2
    simp only [List.map_append, List.map_cons] at h2
    rw [map_sanitize_toDigits, map_sanitize_toDigits] at h2
    have h3 := List.append_cancel_left h2
    simp only [List.cons.injEq] at h3
    exact toDigits_inj h3.2

/-! ## The common parser loop -/

theorem processItems_length (items : List (Bool × String × String)) (counts : String → Nat) :
    (processItems items counts).length = items.length := by
  induction items generalizing counts with
  | nil => rfl
  | cons x items ih => simp [processItems, ih]

theorem processItems_getD (items : List (Bool × String × String)) (counts : String → Nat)
    (i : Nat) (h : i < items.length) :
    (processItems items counts).getD i dEq =
      Equation.new (items.getD i dItem).1
        (suffixName (rawOf (items.getD i dItem))
          (counts (rawOf (items.getD i dItem))
            + ((items.take i).map rawOf).count (rawOf (items.getD i dItem))))
        (items.getD i dItem).2.1 := by
  induction items generalizing counts i with
  | nil => simp at h
  | cons x items ih =>
    cases i with
    | zero =>
      simp [processItems]
    | succ i =>
      have hi : i < items.length := by simpa using h
      have hrec := ih (bump counts (rawOf x)) i hi
      have hstep : (processItems (x :: items) counts).getD (i + 1) dEq
          = (processItems items (bump counts (rawOf x))).getD i dEq := by
        simp [processItems]
      have htake : ((x :: items).take (i + 1)).map rawOf
          = rawOf x :: (items.take i).map rawOf := by simp
      have hgetD : (x :: items).getD (i + 1) dItem = items.getD i dItem := by simp
      rw [hstep, hrec, htake, hgetD]
      by_cases hx : rawOf (items.getD i dItem) = rawOf x
      · rw [hx, List.count_cons_self]
        have harith : bump counts (rawOf x) (rawOf x)
              + ((items.take i).map rawOf).count (rawOf x)
            = counts (rawOf x) + (((items.take i).map rawOf).count (rawOf x) + 1) := by
          unfold bump
          rw [if_pos rfl]
          omega
        rw [harith]
      · have hbump : bump counts (rawOf x) (rawOf (items.getD i dItem))
            = counts (rawOf (items.getD i dItem)) := by
          simp only [bump, if_neg hx]
        have hcount : (rawOf x :: (items.take i).map rawOf).count
              (rawOf (items.getD i dItem))
            = ((items.take i).map rawOf).count (rawOf (items.getD i dItem)) :=
          List.count_cons_of_ne hx _
        rw [hbump, hcount]

theorem processItems_name_mem (items : List (Bool × String × String))
    (counts : String → Nat) (eq : Equation) (h : eq ∈ processItems items counts) :
    ∃ s, eq.name = sanitize_filename s := by
  induction items generalizing counts with
  | nil => simp [processItems] at h
  | cons x items ih =>
    simp only [processItems, List.mem_cons] at h
    rcases h with h | h
    · exact ⟨suffixName (rawOf x) (counts (rawOf x)), by rw [h]; rfl⟩
    · exact ih (bump counts (rawOf x)) h

/-! ## Both parsers are instances of the common loop -/

theorem read_csv_rows_eq_processItems (rows : List String) (counts : String → Nat) :
    read_csv_rows rows counts = processItems (csvItems rows) counts := by
  induction rows generalizing counts with
  | nil => rfl
  | cons line rest ih =>
    by_cases h : 3 ≤ (splitFields line).length
    · have hcsv : csvItems (line :: rest)
          = (eqIgnoreAsciiCase (rustTrim ((splitFields line).getD 0 "")) "yes",
              rustTrim ((splitFields line).getD 1 ""),
              rustTrim ((splitFields line).getD 2 ""))
            :: csvItems rest := by
        simp [csvItems, List.filterMap_cons, h]
      rw [hcsv]
      simp only [read_csv_rows, if_pos h, processItems]
      rw [ih]
      rfl
    · have hcsv : csvItems (line :: rest) = csvItems rest := by
        simp [csvItems, List.filterMap_cons, h]
      rw [hcsv]
      simp only [read_csv_rows, if_neg h]
      exact ih counts

theorem buildEquations_eq_processItems (caps : List MdCap) (counts : String → Nat) :
    buildEquations caps counts = processItems (caps.map capItem) counts := by
  induction caps generalizing counts with
  | nil => rfl
  | cons cap caps ih =>
    simp only [buildEquations, List.map_cons, processItems, capItem, rawOf, mdActive, mdRaw]
    rw [ih]

theorem csvItems_eq_filter (rows : List String) :
    csvItems rows = (rows.filter fun l => 3 ≤ (splitFields l).length).map
      fun l => (eqIgnoreAsciiCase (rustTrim ((splitFields l).getD 0 "")) "yes",
        rustTrim ((splitFields l).getD 1 ""), rustTrim ((splitFields l).getD 2 "")) := by
  induction rows with
  | nil => rfl
  | cons line rest ih =>
    by_cases h : 3 ≤ (splitFields line).length
    · have h1 : csvItems (line :: rest)
          = (eqIgnoreAsciiCase (rustTrim ((splitFields line).getD 0 "")) "yes",
              rustTrim ((splitFields line).getD 1 ""),
              rustTrim ((splitFields line).getD 2 ""))
            :: csvItems rest := by
        simp [csvItems, List.filterMap_cons, h]
      have h2 : (line :: rest).filter (fun l => 3 ≤ (splitFields l).length)
          = line :: rest.filter (fun l => 3 ≤ (splitFields l).length) := by
        simp [List.filter_cons, h]
      rw [h1, h2, List.map_cons, ih]
    · have h1 : csvItems (line :: rest) = csvItems rest := by
        simp [csvItems, List.filterMap_cons, h]
      have h2 : (line :: rest).filter (fun l => 3 ≤ (splitFields l).length)
          = rest.filter (fun l => 3 ≤ (splitFields l).length) := by
        simp [List.filter_cons, h]
      rw [h1, h2, ih]

theorem getD_map {α β : Type} (f : α → β) (d : β) (d' : α) (l : List α) (i : Nat)
    (h : i < l.length) : (l.map f).getD i d = f (l.getD i d') := by
  induction l generalizing i with
  | nil => simp at h
  | cons x l ih =>
    cases i with
    | zero => simp
    | succ i => simpa using ih i (by simpa using h)

/-! ## The opening directive capture is always `yes`, `no`, or absent -/

theorem matchCore_g2 {g2 : Option String} {cs : List Char} {cap : MdCap}
    {rem : List Char} (h : matchCore g2 cs = some (cap, rem)) : cap.g2 = g2 := by
  unfold matchCore at h
  split at h
  next rest =>
    split at h
    next pre post hsplit =>
      cases hnd : matchNameDirective (dropNl post) with
      | some pr =>
        rw [hnd] at h
        cases pr with
        | mk nm rem2 =>
          cases h
          rfl
      | none =>
        rw [hnd] at h
        cases h
        rfl
    next => exact Option.noConfusion h
  next => exact Option.noConfusion h

theorem matchDirective_g2 {cs : List Char} {g2 : Option String} {rest : List Char}
    (h : matchDirective cs = some (g2, rest)) :
    g2 = none ∨ g2 = some "yes" ∨ g2 = some "no" := by
  unfold matchDirective at h
  repeat' split at h
  all_goals cases h
  all_goals simp

theorem matchAt_g2 {cs : List Char} {cap : MdCap} {rem : List Char}
    (h : matchAt cs = some (cap, rem)) :
    cap.g2 = none ∨ cap.g2 = some "yes" ∨ cap.g2 = some "no" := by
  unfold matchAt at h
  split at h
  next g2 rest hdir =>
    split at h
    next r hcore =>
      injection h with h1
      subst h1
      rw [matchCore_g2 hcore]
      exact matchDirective_g2 hdir
    next hcore =>
      left
      exact matchCore_g2 h
  next hdir =>
    left
    exact matchCore_g2 h

theorem scanAux_succ (fuel : Nat) (cs : List Char) :
    scanAux (fuel + 1) cs =
      match matchAt cs with
      | some (cap, rem) => cap :: scanAux fuel rem
      | none =>
        match cs with
        | [] => []
        | _ :: rest => scanAux fuel rest := rfl

theorem scanAux_g2 (fuel : Nat) : ∀ (cs : List Char) (cap : MdCap),
    cap ∈ scanAux fuel cs →
    cap.g2 = none ∨ cap.g2 = some "yes" ∨ cap.g2 = some "no" := by
  induction fuel with
  | zero =>
    intro cs cap h
    simp [scanAux] at h
  | succ fuel ih =>
    intro cs cap h
    rw [scanAux_succ] at h
    split at h
    next cap0 rem hmatch =>
      rcases List.mem_cons.mp h with rfl | h2
      · exact matchAt_g2 hmatch
      · exact ih _ _ h2
    next hmatch =>
      split at h
      · simp at h
      · exact ih _ _ h

theorem mdCaptures_g2 (content : String) (cap : MdCap) (h : cap ∈ mdCaptures content) :
    cap.g2 = none ∨ cap.g2 = some "yes" ∨ cap.g2 = some "no" :=
  scanAux_g2 _ _ _ h

theorem mdActive_eq {cap : MdCap}
    (h : cap.g2 = none ∨ cap.g2 = some "yes" ∨ cap.g2 = some "no") :
    mdActive cap = decide (cap.g2 ≠ some "no") := by
  rcases h with h | h | h <;> simp [mdActive, h]

theorem processItems_names_ne (items : List (Bool × String × String))
    (counts : String → Nat) (i j : Nat) (hij : i < j) (hj : j < items.length)
    (hraw : rawOf (items.getD i dItem) = rawOf (items.getD j dItem)) :
    ((processItems items counts).getD i dEq).name
      ≠ ((processItems items counts).getD j dEq).name := by
  have hi : i < items.length := lt_trans hij hj
  rw [processItems_getD items counts i hi, processItems_getD items counts j hj, hraw]
  intro hcontra
  have hinj := sanitize_suffixName_inj (rawOf (items.getD j dItem)) hcontra
  have hstep : ((items.take (i + 1)).map rawOf).count (rawOf (items.getD j dItem))
      = ((items.take i).map rawOf).count (rawOf (items.getD j dItem)) + 1 := by
    have hget : items[i]? = some (items.getD i dItem) := by
      rw [List.getElem?_eq_getElem hi, List.getD_eq_getElem items dItem hi]
    rw [List.take_succ, hget, List.map_append, List.count_append]
    simp only [Option.toList_some, List.map_cons, List.map_nil]
    rw [hraw]
    simp
  have hmono : ((items.take (i + 1)).map rawOf).count (rawOf (items.getD j dItem))
      ≤ ((items.take j).map rawOf).count (rawOf (items.getD j dItem)) := by
    have hsub : List.Sublist (items.take (i + 1)) (items.take j) := by
      have h1 : (items.take j).take (i + 1) = items.take (i + 1) := by
        rw [List.take_take, min_eq_left (by omega)]
      rw [← h1]
      exact List.take_sublist _ _
    exact (hsub.map rawOf).count_le _
  omega

/-! ## The repository's own test vectors (tests/csv_and_md_test.rs), plus
scanner regression checks -/

theorem csv_test_vector :
    read_csv_file ["active,body,name", "yes,x = y + z,example_equation",
      "no,E = mc^2,"]
    = [⟨true, "example_equation", "x = y + z"⟩,
      ⟨false, "default_equation", "E = mc^2"⟩] := by
  decide

theorem md_test_vector :
    parse_markdown "%%yes%%\n$$x = y + z$$\n%%example_equation%%\n"
      = [⟨true, "example_equation", "x = y + z"⟩] := by
  decide

theorem md_scan_two_blocks :
    parse_markdown "%%no%%\n$$a$$\nplain text\n$$b$$\n%%n%%"
      = [⟨false, "default_equation", "a"⟩, ⟨true, "n", "b"⟩] := by
  decide

theorem md_scan_default_names :
    parse_markdown "$$x$$ $$x$$ %%t%%"
      = [⟨true, "default_equation", "x"⟩, ⟨true, "default_equation_1", "x"⟩] := by
  decide

/-! ## Claim theorems -/

/-- C7: the name sanitizer is idempotent: for every string `x`,
`sanitize(sanitize(x)) = sanitize(x)`. -/
theorem sanitize_filename_idempotent (x : String) :
    sanitize_filename (sanitize_filename x) = sanitize_filename x := by
  by_cases h : x.data = []
  · rw [sanitize_filename_of_empty x h]
    decide
  · rw [sanitize_filename_of_ne x h]
    have hne : ¬ (⟨x.data.map sanitizeChar⟩ : String).data = [] := by
      simpa using h
    rw [sanitize_filename_of_ne _ hne]
    congr 1
    show (x.data.map sanitizeChar).map sanitizeChar = x.data.map sanitizeChar
    rw [List.map_map]
    apply List.map_congr_left
    intro a _
    exact sanitizeChar_idem a

/-- C3: `detect_file_type` classifies by exact, case-sensitive extension
match: `"csv"` is CSV, `"md"`/`"markdown"` are Markdown, everything else —
including `"CSV"`, any other string, and a missing extension — is Unknown. -/
theorem detect_file_type_spec :
    detect_file_type (some "csv") = Filetype.Csv
    ∧ detect_file_type (some "md") = Filetype.Markdown
    ∧ detect_file_type (some "markdown") = Filetype.Markdown
    ∧ detect_file_type none = Filetype.Unknown
    ∧ detect_file_type (some "CSV") = Filetype.Unknown
    ∧ ∀ e : String, e ≠ "csv" → e ≠ "md" → e ≠ "markdown" →
        detect_file_type (some e) = Filetype.Unknown := by
  refine ⟨by decide, by decide, by decide, by decide, by decide, ?_⟩
  intro e h1 h2 h3
  unfold detect_file_type
  split <;> simp_all

/-- C3 witness: a concrete unrecognized extension is Unknown. -/
theorem detect_file_type_spec_witness :
    detect_file_type (some "txt") = Filetype.Unknown :=
  detect_file_type_spec.2.2.2.2.2 "txt" (by decide) (by decide) (by decide)

/-- C9: rendering an inactive record is a no-op success: it returns `Ok`
and performs no effect at all (no directory creation, no file write or
removal, no spawned process). -/
theorem render_inactive (eq : Equation) (env : Env) (output_dir color : String)
    (del : Bool) (h : eq.active = false) :
    eq.render env output_dir color del = (Except.ok (), []) := by
  unfold Equation.render
  rw [h]
  simp

/-- C9 witness: a concrete inactive record renders as a traceless no-op. -/
theorem render_inactive_witness :
    Equation.render ⟨false, "n", "b"⟩
      ⟨fun _ => .ok (), fun _ _ => .ok (), fun _ _ => .ok true, fun _ _ => .ok true⟩
      "out" "#000000" true = (Except.ok (), []) :=
  render_inactive _ _ _ _ _ rfl

/-- C8: every record produced by either parser has a non-empty name all of
whose characters lie in `[A-Za-z0-9_.]`. -/
theorem parser_names_sanitized (lines : List String) (content : String) (eq : Equation)
    (h : eq ∈ read_csv_file lines ∨ eq ∈ parse_markdown content) :
    eq.name ≠ "" ∧ ∀ c ∈ eq.name.data, allowedChar c = true := by
  have hname : ∃ s, eq.name = sanitize_filename s := by
    rcases h with h | h
    · unfold read_csv_file at h
      rw [read_csv_rows_eq_processItems] at h
      exact processItems_name_mem _ _ _ h
    · unfold parse_markdown at h
      rw [buildEquations_eq_processItems] at h
      exact processItems_name_mem _ _ _ h
  obtain ⟨s, hs⟩ := hname
  rw [hs]
  exact ⟨sanitize_filename_ne_empty s, sanitize_filename_chars s⟩

/-- C8 witness: a concrete parsed record satisfies the name invariant. -/
theorem parser_names_sanitized_witness :
    (⟨true, "example_equation", "x = y + z"⟩ : Equation).name ≠ ""
    ∧ ∀ c ∈ (⟨true, "example_equation", "x = y + z"⟩ : Equation).name.data,
        allowedChar c = true :=
  parser_names_sanitized ["active,body,name", "yes,x = y + z,example_equation"] ""
    ⟨true, "example_equation", "x = y + z"⟩ (Or.inl (by decide))

/-- C10: two accepted CSV rows with an empty trimmed name field produce the
names `"default_equation"` and `"_1"` — the suffix is applied to the empty
pre-sanitization key, so the second record is not `"default_equation_1"`. -/
theorem csv_empty_name_dedup :
    (read_csv_file ["active,body,name", "yes,a,", "yes,b,"]).map Equation.name
      = ["default_equation", "_1"]
    ∧ ((read_csv_file ["active,body,name", "yes,a,", "yes,b,"]).getD 1 dEq).name
      ≠ "default_equation_1" := by
  decide

/-- C1 counterexample: one CSV parse in which two records end up with the
same sanitized name — the raw names `"a b"` and `"a_b"` both sanitize to
`"a_b"`, so the returned names are not pairwise distinct. -/
theorem parse_names_collision_cex :
    (read_csv_file ["active,body,name", "yes,u,a b", "yes,v,a_b"]).map Equation.name
      = ["a_b", "a_b"]
    ∧ ¬ ((read_csv_file ["active,body,name", "yes,u,a b", "yes,v,a_b"]).map
        Equation.name).Nodup := by
  decide

/-- C1 amended: within one parser invocation, records whose raw candidate
names are equal always receive pairwise distinct final names (the numeric
suffix scheme disambiguates them), but records with different raw candidate
names may collide after suffixing and sanitization. -/
theorem parse_names_collision_amended (lines : List String) (content : String)
    (i j : Nat) (hij : i < j) :
    (∀ hj : j < (read_csv_file lines).length,
      rawOf ((csvItems (lines.drop 1)).getD i dItem)
        = rawOf ((csvItems (lines.drop 1)).getD j dItem) →
      ((read_csv_file lines).getD i dEq).name ≠ ((read_csv_file lines).getD j dEq).name)
    ∧ (∀ hj : j < (parse_markdown content).length,
      mdRaw ((mdCaptures content).getD i dCap) = mdRaw ((mdCaptures content).getD j dCap) →
      ((parse_markdown content).getD i dEq).name
        ≠ ((parse_markdown content).getD j dEq).name) := by
  constructor
  · intro hj hraw
    have heq : read_csv_file lines = processItems (csvItems (lines.drop 1)) (fun _ => 0) := by
      unfold read_csv_file
      rw [read_csv_rows_eq_processItems]
    rw [heq] at hj ⊢
    rw [processItems_length] at hj
    exact processItems_names_ne _ _ i j hij hj hraw
  · intro hj hraw
    have heq : parse_markdown content
        = processItems ((mdCaptures content).map capItem) (fun _ => 0) := by
      unfold parse_markdown
      rw [buildEquations_eq_processItems]
    rw [heq] at hj ⊢
    rw [processItems_length, List.length_map] at hj
    apply processItems_names_ne _ _ i j hij (by rw [List.length_map]; exact hj)
    rw [getD_map capItem dItem dCap _ i (lt_trans hij hj),
      getD_map capItem dItem dCap _ j hj]
    exact hraw

/-- C1 witness for the amended claim: two rows with the same raw name
`"foo"` get distinct final names. -/
theorem parse_names_collision_amended_witness :
    ((read_csv_file ["h", "yes,a,foo", "yes,b,foo"]).getD 0 dEq).name
      ≠ ((read_csv_file ["h", "yes,a,foo", "yes,b,foo"]).getD 1 dEq).name :=
  (parse_names_collision_amended ["h", "yes,a,foo", "yes,b,foo"] "" 0 1
    (by decide)).1 (by decide) (by decide)

/-- C6: in either parser, the record at position `i` is named by suffixing
the raw candidate with its number of prior occurrences *in this same parse
call* (`k`-th occurrence of a base gets `_(k-1)`, the first is unsuffixed),
and the counter starts from zero on every invocation — it is a function of
this call's input alone, shared with nothing. -/
theorem duplicate_suffix_spec (lines : List String) (content : String) (i : Nat) :
    (∀ _h : i < (read_csv_file lines).length,
      ((read_csv_file lines).getD i dEq).name
        = sanitize_filename (suffixName (rawOf ((csvItems (lines.drop 1)).getD i dItem))
            ((((csvItems (lines.drop 1)).take i).map rawOf).count
              (rawOf ((csvItems (lines.drop 1)).getD i dItem)))))
    ∧ (∀ _h : i < (parse_markdown content).length,
      ((parse_markdown content).getD i dEq).name
        = sanitize_filename (suffixName (mdRaw ((mdCaptures content).getD i dCap))
            ((((mdCaptures content).take i).map (fun c => mdRaw c)).count
              (mdRaw ((mdCaptures content).getD i dCap)))))
    ∧ (∀ r : String, suffixName r 0 = r)
    ∧ (∀ r : String, ∀ k : Nat, 0 < k → suffixName r k = r ++ "_" ++ toString k) := by
  refine ⟨?_, ?_, fun r => rfl, fun r k hk => suffixName_pos r hk⟩
  · intro h
    have heq : read_csv_file lines = processItems (csvItems (lines.drop 1)) (fun _ => 0) := by
      unfold read_csv_file
      rw [read_csv_rows_eq_processItems]
    rw [heq] at h ⊢
    rw [processItems_length] at h
    rw [processItems_getD _ _ i h]
    show sanitize_filename (suffixName _ (0 + _)) = _
    rw [Nat.zero_add]
  · intro h
    have heq : parse_markdown content
        = processItems ((mdCaptures content).map capItem) (fun _ => 0) := by
      unfold parse_markdown
      rw [buildEquations_eq_processItems]
    rw [heq] at h ⊢
    rw [processItems_length, List.length_map] at h
    rw [processItems_getD _ _ i (by rw [List.length_map]; exact h)]
    rw [getD_map capItem dItem dCap _ i h]
    show sanitize_filename (suffixName _ (0 + _)) = _
    rw [Nat.zero_add]
    have hmap : ((((mdCaptures content).map capItem).take i).map rawOf)
        = ((mdCaptures content).take i).map (fun c => mdRaw c) := by
      rw [← List.map_take, List.map_map]
      rfl
    rw [hmap]
    rfl

/-- C6 witness: the second occurrence of the raw name `"n"` in one CSV parse
is named by suffixing it with its single prior occurrence. -/
theorem duplicate_suffix_spec_witness :
    ((read_csv_file ["h", "yes,a,n", "yes,b,n"]).getD 1 dEq).name
      = sanitize_filename (suffixName
          (rawOf ((csvItems (["h", "yes,a,n", "yes,b,n"].drop 1)).getD 1 dItem))
          ((((csvItems (["h", "yes,a,n", "yes,b,n"].drop 1)).take 1).map rawOf).count
            (rawOf ((csvItems (["h", "yes,a,n", "yes,b,n"].drop 1)).getD 1 dItem)))) :=
  (duplicate_suffix_spec ["h", "yes,a,n", "yes,b,n"] "" 1).1 (by decide)

/-- C4 counterexample: the code trims field 0 before the case-insensitive
comparison with `"yes"`, so the row `" yes,x,n"` yields an active record
even though its field 0, `" yes"`, is not a case-insensitive match for
`"yes"`. -/
theorem read_csv_file_cex :
    ((read_csv_file ["active,body,name", " yes,x,n"]).getD 0 dEq).active = true
    ∧ eqIgnoreAsciiCase ((splitFields " yes,x,n").getD 0 "") "yes" = false := by
  decide

/-- C4 amended: `read_csv_file` discards the first row, accepts exactly the
subsequent rows splitting on `','` into at least 3 fields (in order), and
for the `i`-th accepted row: `active` is true iff field 0 *trimmed* matches
`"yes"` case-insensitively, `body` is field 1 trimmed, and `name` is field 2
trimmed, suffixed by its prior-occurrence count, then sanitized. -/
theorem read_csv_file_amended (lines : List String) (i : Nat) :
    (read_csv_file lines).length
      = ((lines.drop 1).filter fun l => 3 ≤ (splitFields l).length).length
    ∧ ∀ _h : i < (read_csv_file lines).length,
        ((read_csv_file lines).getD i dEq).active
          = eqIgnoreAsciiCase (rustTrim ((splitFields (((lines.drop 1).filter
              fun l => 3 ≤ (splitFields l).length).getD i "")).getD 0 "")) "yes"
        ∧ ((read_csv_file lines).getD i dEq).body
          = rustTrim ((splitFields (((lines.drop 1).filter
              fun l => 3 ≤ (splitFields l).length).getD i "")).getD 1 "")
        ∧ ((read_csv_file lines).getD i dEq).name
          = sanitize_filename (suffixName
              (rustTrim ((splitFields (((lines.drop 1).filter
                fun l => 3 ≤ (splitFields l).length).getD i "")).getD 2 ""))
              (((((lines.drop 1).filter fun l => 3 ≤ (splitFields l).length).take i).map
                  fun l => rustTrim ((splitFields l).getD 2 "")).count
                (rustTrim ((splitFields (((lines.drop 1).filter
                  fun l => 3 ≤ (splitFields l).length).getD i "")).getD 2 "")))) := by
  have heq : read_csv_file lines = processItems (csvItems (lines.drop 1)) (fun _ => 0) := by
    unfold read_csv_file
    rw [read_csv_rows_eq_processItems]
  have hcsv := csvItems_eq_filter (lines.drop 1)
  constructor
  · rw [heq, processItems_length, hcsv, List.length_map]
  · intro h
    rw [heq] at h ⊢
    rw [processItems_length] at h
    have hQ : i < ((lines.drop 1).filter fun l => 3 ≤ (splitFields l).length).length := by
      rw [hcsv, List.length_map] at h
      exact h
    rw [processItems_getD _ _ i h]
    rw [hcsv, getD_map _ dItem "" _ i hQ]
    have hmap : (((((lines.drop 1).filter fun l => 3 ≤ (splitFields l).length).map
          fun l => (eqIgnoreAsciiCase (rustTrim ((splitFields l).getD 0 "")) "yes",
            rustTrim ((splitFields l).getD 1 ""),
            rustTrim ((splitFields l).getD 2 ""))).take i).map rawOf)
        = (((lines.drop 1).filter fun l => 3 ≤ (splitFields l).length).take i).map
            fun l => rustTrim ((splitFields l).getD 2 "") := by
      rw [← List.map_take, List.map_map]
      rfl
    rw [hmap]
    refine ⟨rfl, rfl, ?_⟩
    show sanitize_filename (suffixName _ (0 + _)) = _
    rw [Nat.zero_add]
    rfl

/-- C4 witness: the amended field mapping at a concrete accepted row. -/
theorem read_csv_file_amended_witness :
    ((read_csv_file ["h", "a,b,c"]).getD 0 dEq).active
      = eqIgnoreAsciiCase (rustTrim ((splitFields (((["h", "a,b,c"].drop 1).filter
          fun l => 3 ≤ (splitFields l).length).getD 0 "")).getD 0 "")) "yes" :=
  ((read_csv_file_amended ["h", "a,b,c"] 0).2 (by decide)).1

/-- C5: each markdown block yields one record: `active` is true unless the
opening directive captured `"no"`, `body` is the captured text between the
`$$` delimiters trimmed, and the candidate name is the trailing `%%...%%`
directive text when present and `"default_equation"` otherwise; in
particular the spec's example input yields exactly the expected record. -/
theorem parse_markdown_spec (content : String) (i : Nat) :
    parse_markdown "%%yes%%\n$$x = y + z$$\n%%example_equation%%\n"
      = [{ active := true, name := "example_equation", body := "x = y + z" }]
    ∧ (parse_markdown content).length = (mdCaptures content).length
    ∧ ∀ _h : i < (parse_markdown content).length,
        ((parse_markdown content).getD i dEq).active
          = decide (((mdCaptures content).getD i dCap).g2 ≠ some "no")
        ∧ ((parse_markdown content).getD i dEq).body
          = rustTrim ((mdCaptures content).getD i dCap).g3
        ∧ ((parse_markdown content).getD i dEq).name
          = sanitize_filename (suffixName (mdRaw ((mdCaptures content).getD i dCap))
              ((((mdCaptures content).take i).map (fun c => mdRaw c)).count
                (mdRaw ((mdCaptures content).getD i dCap)))) := by
  have heq : parse_markdown content
      = processItems ((mdCaptures content).map capItem) (fun _ => 0) := by
    unfold parse_markdown
    rw [buildEquations_eq_processItems]
  refine ⟨by decide, ?_, ?_⟩
  · rw [heq, processItems_length, List.length_map]
  · intro h
    rw [heq] at h ⊢
    rw [processItems_length, List.length_map] at h
    rw [processItems_getD _ _ i (by rw [List.length_map]; exact h)]
    rw [getD_map capItem dItem dCap _ i h]
    have hmem : (mdCaptures content).getD i dCap ∈ mdCaptures content := by
      rw [List.getD_eq_getElem _ dCap h]
      exact List.getElem_mem h
    refine ⟨?_, rfl, ?_⟩
    · show mdActive _ = _
      exact mdActive_eq (mdCaptures_g2 content _ hmem)
    · show sanitize_filename (suffixName _ (0 + _)) = _
      rw [Nat.zero_add]
      have hmap : ((((mdCaptures content).map capItem).take i).map rawOf)
          = ((mdCaptures content).take i).map (fun c => mdRaw c) := by
        rw [← List.map_take, List.map_map]
        rfl
      rw [hmap]
      rfl

/-- C5 witness: the per-block field mapping at a concrete input. -/
theorem parse_markdown_spec_witness :
    ((parse_markdown "$$a$$").getD 0 dEq).body
      = rustTrim ((mdCaptures "$$a$$").getD 0 dCap).g3 :=
  (((parse_markdown_spec "$$a$$" 0).2.2 (by decide)).2.1)

/-- C2 counterexample: in an environment where `tectonic` always runs but
exits with a non-zero status, a two-record batch completes with `Ok` and
the second record is still processed (its `tectonic` spawn appears in the
trace) — `render_equations` neither stops at the first record nor
propagates any error. -/
theorem render_nonzero_status_cex :
    (render_equations [⟨true, "a", "x"⟩, ⟨true, "b", "y"⟩] envNonZero "out" "#000000"
        false).1 = Except.ok ()
    ∧ Effect.spawnTectonic "out/b.tex" "out"
        ∈ (render_equations [⟨true, "a", "x"⟩, ⟨true, "b", "y"⟩] envNonZero "out" "#000000"
            false).2 :=
  ⟨rfl, by decide⟩

/-- C2 amended: a non-zero `tectonic` exit status is swallowed — `render`
skips the SVG conversion and returns `Ok`, and the batch continues with the
remaining records; only a failure to run the process at all (an I/O error
from `status()`) makes `render` return `Err`, which `render_equations`
propagates, stopping at that record. -/
theorem render_nonzero_status_amended (eq : Equation) (env : Env)
    (output_dir color : String) (del : Bool) (rest : List Equation)
    (hact : eq.active = true)
    (hdir : env.createDirAll output_dir = Except.ok ())
    (hwrite : env.writeFile (joinPath output_dir (eq.name ++ ".tex"))
      (generate_latex eq color) = Except.ok ()) :
    (env.runTectonic (joinPath output_dir (eq.name ++ ".tex")) output_dir
        = Except.ok false →
      eq.render env output_dir color del
        = (Except.ok (), [Effect.createDirAll output_dir,
            Effect.writeFile (joinPath output_dir (eq.name ++ ".tex"))
              (generate_latex eq color),
            Effect.spawnTectonic (joinPath output_dir (eq.name ++ ".tex")) output_dir])
      ∧ (render_equations (eq :: rest) env output_dir color del).1
        = (render_equations rest env output_dir color del).1)
    ∧ ∀ err, env.runTectonic (joinPath output_dir (eq.name ++ ".tex")) output_dir
        = Except.error err →
      eq.render env output_dir color del
        = (Except.error err, [Effect.createDirAll output_dir,
            Effect.writeFile (joinPath output_dir (eq.name ++ ".tex"))
              (generate_latex eq color),
            Effect.spawnTectonic (joinPath output_dir (eq.name ++ ".tex")) output_dir])
      ∧ render_equations (eq :: rest) env output_dir color del
        = (Except.error err, [Effect.createDirAll output_dir,
            Effect.writeFile (joinPath output_dir (eq.name ++ ".tex"))
              (generate_latex eq color),
            Effect.spawnTectonic (joinPath output_dir (eq.name ++ ".tex")) output_dir]) := by
  have hfilter : (eq :: rest).filter (fun e => e.active)
      = eq :: rest.filter (fun e => e.active) := by
    simp [List.filter_cons, hact]
  constructor
  · intro htec
    have hr : eq.render env output_dir color del
        = (Except.ok (), [Effect.createDirAll output_dir,
            Effect.writeFile (joinPath output_dir (eq.name ++ ".tex"))
              (generate_latex eq color),
            Effect.spawnTectonic (joinPath output_dir (eq.name ++ ".tex")) output_dir]) := by
      unfold Equation.render
      rw [hact]
      simp only [Bool.true_eq_false, if_false, hdir, hwrite, htec]
      rfl
    refine ⟨hr, ?_⟩
    unfold render_equations
    rw [hfilter]
    simp only [render_loop]
    rw [hr]
  · intro err htec
    have hr : eq.render env output_dir color del
        = (Except.error err, [Effect.createDirAll output_dir,
            Effect.writeFile (joinPath output_dir (eq.name ++ ".tex"))
              (generate_latex eq color),
            Effect.spawnTectonic (joinPath output_dir (eq.name ++ ".tex")) output_dir]) := by
      unfold Equation.render
      rw [hact]
      simp only [Bool.true_eq_false, if_false, hdir, hwrite, htec]
    refine ⟨hr, ?_⟩
    unfold render_equations
    rw [hfilter]
    simp only [render_loop]
    rw [hr]

/-- C2 witness for the amended claim: with `tectonic` exiting non-zero, a
one-record batch finishes exactly like the empty batch. -/
theorem render_nonzero_status_amended_witness :
    (render_equations [⟨true, "a", "x"⟩] envNonZero "out" "#000000" false).1
      = (render_equations [] envNonZero "out" "#000000" false).1 :=
  ((render_nonzero_status_amended ⟨true, "a", "x"⟩ envNonZero "out" "#000000" false []
    rfl rfl rfl).1 rfl).2

end EquationProcessor
